import Mathlib

/-!
# Database user resource: reconciliation of declared and observed state

A shallow embedding of `vultr/resource_vultr_database_user.go`.

The four lifecycle functions of the resource (`resourceVultrDatabaseUserCreate`,
`resourceVultrDatabaseUserRead`, `resourceVultrDatabaseUserUpdate`,
`resourceVultrDatabaseUserDelete`) and the helper `updateUserACL` are translated as pure
functions that pass the resource data and the history of remote calls explicitly.

* The remote client (`client.Database`) is a deterministic oracle: the answer to a call is a
  function of the calls issued before it and of the call's arguments.  Any deterministic
  stateful remote is such a function.
* `schema.ResourceData` is modelled by its three reading levels: the prior state, the planned
  values (state merged with the diff) and the values written with `d.Set`, together with the
  hash codes of its schema's sets.
* A `*schema.Set` is represented by its `List()` enumeration.  That enumeration is a function
  of the set's contents, so equality of sets is equality of the enumerations.  `d.Set` on a
  set attribute builds the set from the slice it is given: elements with the same hash code
  are one element, and the enumeration follows the order of the codes.
* A Go slice of strings is a `StringSlice`: the nil slice is distinguished from a non-nil
  slice, empty or not.  A pointer to a slice is an `Option`: `none` is the nil pointer.
-/

namespace Vultr

/-! ## Remote data (package `govultr`) -/

/-- A Go value of type `[]string`: the nil slice, or a non-nil slice with its elements (a
non-nil slice may be empty). -/
inductive StringSlice where
  | nil
  | mk (elems : List String)
  deriving DecidableEq

/-- The elements of a slice, what `range` yields; the nil slice has none. -/
def StringSlice.elems : StringSlice → List String
  | .nil => []
  | .mk elems => elems

/-- The Go expression `append(xs, r)`: its result is never nil. -/
def StringSlice.append (xs : StringSlice) (r : String) : StringSlice :=
  .mk (xs.elems ++ [r])

/-- The access-control object of an observed user: `govultr.DatabaseUserACL`. -/
structure DatabaseUserACL where
  ACLCategories : StringSlice
  ACLChannels : StringSlice
  ACLCommands : StringSlice
  ACLKeys : StringSlice
  deriving DecidableEq

/-- The observed user: `govultr.DatabaseUser`.  `AccessControl` is a pointer in the source. -/
structure DatabaseUser where
  Username : String
  Password : String
  Encryption : String
  AccessControl : Option DatabaseUserACL
  Permission : String
  AccessKey : String
  AccessCert : String
  deriving DecidableEq

/-- The creation request: `govultr.DatabaseUserCreateReq`. -/
structure DatabaseUserCreateReq where
  Username : String
  Password : String
  Encryption : String
  Permission : String
  deriving DecidableEq

/-- The credential update request: `govultr.DatabaseUserUpdateReq`. -/
structure DatabaseUserUpdateReq where
  Password : String
  deriving DecidableEq

/-- The access-control update request: `govultr.DatabaseUserACLReq`.  The four lists are
pointers to slices in the source (`none` is the nil pointer, a list left out). -/
structure DatabaseUserACLReq where
  ACLCategories : Option StringSlice := none
  ACLChannels : Option StringSlice := none
  ACLCommands : Option StringSlice := none
  ACLKeys : Option StringSlice := none
  Permission : String := ""
  deriving DecidableEq

/-- A Go `error` returned by the remote client.  `notFound` records that the remote reported
the entity absent; `msg` is the text of `err.Error()`. -/
structure RemoteError where
  notFound : Bool
  msg : String
  deriving DecidableEq

/-- One remote call, with its arguments. -/
inductive Call where
  | CreateUser (databaseID : String) (req : DatabaseUserCreateReq)
  | GetUser (databaseID : String) (userID : String)
  | UpdateUser (databaseID : String) (userID : String) (req : DatabaseUserUpdateReq)
  | UpdateUserACL (databaseID : String) (userID : String) (req : DatabaseUserACLReq)
  | DeleteUser (databaseID : String) (userID : String)
  deriving DecidableEq

/-- The remote collaborator `client.Database`.  Every method receives the calls issued so far
(oldest first) and its own arguments. -/
structure Client where
  CreateUser : List Call → String → DatabaseUserCreateReq → Except RemoteError DatabaseUser
  GetUser : List Call → String → String → Except RemoteError DatabaseUser
  UpdateUser : List Call → String → String → DatabaseUserUpdateReq →
    Except RemoteError DatabaseUser
  UpdateUserACL : List Call → String → String → DatabaseUserACLReq →
    Except RemoteError DatabaseUser
  DeleteUser : List Call → String → String → Option RemoteError

/-- The error, if any, with which the remote answers call `c` after the calls `history`. -/
def Client.failure (client : Client) (history : List Call) (c : Call) : Option RemoteError :=
  match c with
  | .CreateUser databaseID req =>
    match client.CreateUser history databaseID req with
    | .error err => some err
    | .ok _ => none
  | .GetUser databaseID userID =>
    match client.GetUser history databaseID userID with
    | .error err => some err
    | .ok _ => none
  | .UpdateUser databaseID userID req =>
    match client.UpdateUser history databaseID userID req with
    | .error err => some err
    | .ok _ => none
  | .UpdateUserACL databaseID userID req =>
    match client.UpdateUserACL history databaseID userID req with
    | .error err => some err
    | .ok _ => none
  | .DeleteUser databaseID userID => client.DeleteUser history databaseID userID

/-- Every call of `calls`, issued in order after `history`, is answered without error. -/
def Client.allSucceed (client : Client) (history : List Call) : List Call → Bool
  | [] => true
  | c :: rest =>
    (client.failure history c).isNone && client.allSucceed (history ++ [c]) rest

/-! ## Diagnostics (package `diag`) -/

/-- Severity of a diagnostic: `diag.Severity`. -/
inductive Severity where
  | Error
  | Warning
  deriving DecidableEq

/-- One diagnostic: `diag.Diagnostic` (severity and summary). -/
structure Diagnostic where
  severity : Severity
  summary : String
  deriving DecidableEq

/-- The value `diag.Diagnostics`; the nil value `[]` is success. -/
abbrev Diagnostics := List Diagnostic

/-- The value `diag.Errorf(...)` once the format string is expanded to `summary`. -/
def Errorf (summary : String) : Diagnostics := [⟨Severity.Error, summary⟩]

/-! ## Resource data (package `schema`) -/

/-- One element of the `access_control` set: a map holding four sets of strings, each given
by its `List()` enumeration. -/
structure UserACL where
  acl_categories : List String
  acl_channels : List String
  acl_commands : List String
  acl_keys : List String
  deriving DecidableEq

/-- The attributes of the resource schema at one reading level.  An attribute that is not
declared holds the zero value (`""`, the empty set). -/
structure Fields where
  database_id : String := ""
  username : String := ""
  password : String := ""
  encryption : String := ""
  permission : String := ""
  access_control : List UserACL := []
  access_key : String := ""
  access_cert : String := ""
  deriving DecidableEq

/-- The values written with `d.Set` (the set level); `none` is an attribute not written. -/
structure Written where
  database_id : Option String := none
  username : Option String := none
  password : Option String := none
  encryption : Option String := none
  permission : Option String := none
  access_control : Option (List UserACL) := none
  access_key : Option String := none
  access_cert : Option String := none
  deriving DecidableEq

/-- One element of the slice handed to `d.Set("access_control", ...)`: a
`map[string]interface{}` holding four plain slices of strings. -/
structure FlatUserACL where
  acl_categories : StringSlice
  acl_channels : StringSlice
  acl_commands : StringSlice
  acl_keys : StringSlice
  deriving DecidableEq

/-- The hash codes of the sets of the resource schema, as far as the order of `List()` goes:
`stringCode` ranks the code of an element of one of the four string sets, `blockCode` the
code of an element of the `access_control` set.  Elements of a set with equal codes are one
element; `List()` enumerates by increasing code.  The hash functions themselves belong to
the SDK and are not fixed here. -/
structure SetFuncs where
  stringCode : String → Nat
  blockCode : UserACL → Nat

/-- The method `Set.Add` on the enumeration of a set: `item` is placed by its code, and is
dropped when an element with the same code is already there. -/
def setAdd {α : Type} (code : α → Nat) (item : α) : List α → List α
  | [] => [item]
  | y :: ys =>
    if code item < code y then item :: y :: ys
    else if code item = code y then y :: ys
    else y :: setAdd code item ys

/-- The enumeration `List()` of the set built by adding the elements of `items` in order to
an empty set. -/
def setList {α : Type} (code : α → Nat) (items : List α) : List α :=
  items.foldl (fun set item => setAdd code item set) []

/-- The value `*schema.ResourceData`: the identifier, the prior state (what `GetChange`
returns as old), the planned values (what `GetChange` returns as new), the set level, and
the hash codes of the schema it was created for. -/
structure ResourceData where
  id : String := ""
  state : Fields := {}
  plan : Fields := {}
  written : Written := {}
  schema : SetFuncs

namespace ResourceData

/-- The `*schema.Set` that `d.Set` builds from a slice of blocks: each of the four slices of
a block becomes a set of strings, then the blocks are added to a set of blocks. -/
def toSet (d : ResourceData) (value : List FlatUserACL) : List UserACL :=
  setList d.schema.blockCode
    (value.map (fun block =>
      { acl_categories := setList d.schema.stringCode block.acl_categories.elems
        acl_channels := setList d.schema.stringCode block.acl_channels.elems
        acl_commands := setList d.schema.stringCode block.acl_commands.elems
        acl_keys := setList d.schema.stringCode block.acl_keys.elems }))

/-- The call `d.Id()`. -/
def Id (d : ResourceData) : String := d.id

/-- The call `d.SetId(v)`. -/
def SetId (d : ResourceData) (v : String) : ResourceData := { d with id := v }

/-- The call `d.Get(key).(string)`: the written value if there is one, else the planned one. -/
def GetString (d : ResourceData) (key : String) : String :=
  match key with
  | "database_id" => d.written.database_id.getD d.plan.database_id
  | "username" => d.written.username.getD d.plan.username
  | "password" => d.written.password.getD d.plan.password
  | "encryption" => d.written.encryption.getD d.plan.encryption
  | "permission" => d.written.permission.getD d.plan.permission
  | "access_key" => d.written.access_key.getD d.plan.access_key
  | "access_cert" => d.written.access_cert.getD d.plan.access_cert
  | _ => ""

/-- The call `d.Get(key).(*schema.Set).List()` for a set attribute. -/
def GetSet (d : ResourceData) (key : String) : List UserACL :=
  match key with
  | "access_control" => d.written.access_control.getD d.plan.access_control
  | _ => []

/-- The call `d.GetOk(key)` for a set attribute: the value, and whether it is not the zero
value (the empty set). -/
def GetOkSet (d : ResourceData) (key : String) : List UserACL × Bool :=
  (d.GetSet key, !(d.GetSet key).isEmpty)

/-- The call `d.GetChange(key)` for a string attribute: the prior and the planned value. -/
def GetChangeString (d : ResourceData) (key : String) : String × String :=
  match key with
  | "database_id" => (d.state.database_id, d.plan.database_id)
  | "username" => (d.state.username, d.plan.username)
  | "password" => (d.state.password, d.plan.password)
  | "encryption" => (d.state.encryption, d.plan.encryption)
  | "permission" => (d.state.permission, d.plan.permission)
  | "access_key" => (d.state.access_key, d.plan.access_key)
  | "access_cert" => (d.state.access_cert, d.plan.access_cert)
  | _ => ("", "")

/-- The call `d.GetChange(key)` for a set attribute. -/
def GetChangeSet (d : ResourceData) (key : String) : List UserACL × List UserACL :=
  match key with
  | "access_control" => (d.state.access_control, d.plan.access_control)
  | _ => ([], [])

/-- The call `d.HasChange(key)`: the prior and the planned value differ. -/
def HasChange (d : ResourceData) (key : String) : Bool :=
  match key with
  | "access_control" => decide ((d.GetChangeSet key).1 ≠ (d.GetChangeSet key).2)
  | _ => decide ((d.GetChangeString key).1 ≠ (d.GetChangeString key).2)

/-- The call `d.Set(key, value)` with a string value.  It fails on a key that is not a string
attribute of the schema. -/
def SetString (d : ResourceData) (key : String) (value : String) :
    Except String ResourceData :=
  match key with
  | "database_id" => .ok { d with written := { d.written with database_id := some value } }
  | "username" => .ok { d with written := { d.written with username := some value } }
  | "password" => .ok { d with written := { d.written with password := some value } }
  | "encryption" => .ok { d with written := { d.written with encryption := some value } }
  | "permission" => .ok { d with written := { d.written with permission := some value } }
  | "access_key" => .ok { d with written := { d.written with access_key := some value } }
  | "access_cert" => .ok { d with written := { d.written with access_cert := some value } }
  | _ => .error ("Invalid address to set: " ++ key)

/-- The call `d.Set(key, value)` for a set attribute, with a slice of blocks as value: the
set built from the slice is what is written.  It fails on a key that is not a set attribute
of the schema. -/
def SetSet (d : ResourceData) (key : String) (value : List FlatUserACL) :
    Except String ResourceData :=
  match key with
  | "access_control" =>
    .ok { d with written := { d.written with access_control := some (d.toSet value) } }
  | _ => .error ("Invalid address to set: " ++ key)

end ResourceData

/-- What a lifecycle function leaves behind: the diagnostics it returns, the resource data
after it, and all remote calls issued so far (oldest first). -/
structure Outcome where
  diags : Diagnostics
  d : ResourceData
  calls : List Call

/-! ## The resource functions -/

/-- Modelled from the spec: `flattenUserACL` is defined in another file of the package.
The spec (section 4.1, `fromResponse`) says it copies the four observed lists verbatim into
the declared shape, with no filtering or renaming.  The source calls it only on a user whose
`AccessControl` is not nil; on a nil one the Go function would dereference nil, which is
rendered here by the empty value. -/
def flattenUserACL (databaseUser : DatabaseUser) : List FlatUserACL :=
  match databaseUser.AccessControl with
  | none => []
  | some acl =>
    [{ acl_categories := acl.ACLCategories, acl_channels := acl.ACLChannels,
       acl_commands := acl.ACLCommands, acl_keys := acl.ACLKeys }]

/-- The loop `for _, r := range set.List() { xs = append(xs, r.(string)) }` on a slice `xs`
declared with `var`, which starts as the nil slice: `xs` stays nil when the set is empty. -/
def appendAll (set : List String) : StringSlice :=
  set.foldl (fun xs r => xs.append r) StringSlice.nil

/-- The request built by one iteration of the loop of `updateUserACL` for the element `v`. -/
def aclReqOf (v : UserACL) : DatabaseUserACLReq :=
  let req : DatabaseUserACLReq := {}
  let req := { req with ACLCategories := some (appendAll v.acl_categories) }
  let req := { req with ACLChannels := some (appendAll v.acl_channels) }
  let req := { req with ACLCommands := some (appendAll v.acl_commands) }
  let req := { req with ACLKeys := some (appendAll v.acl_keys) }
  req

/-- The function `updateUserACL`: one `UpdateUserACL` call for each element of
`accessControl`, in order, returning the first error.  The result is the returned error
(`none` is nil) and the calls issued so far. -/
def updateUserACL (client : Client) (databaseID : String) (d : ResourceData)
    (accessControl : List UserACL) (calls : List Call) : Option RemoteError × List Call :=
  match accessControl with
  | [] => (none, calls)
  | v :: rest =>
    let req := aclReqOf v
    match client.UpdateUserACL calls databaseID d.Id req with
    | .error err => (some err, calls ++ [Call.UpdateUserACL databaseID d.Id req])
    | .ok _ =>
      updateUserACL client databaseID d rest (calls ++ [Call.UpdateUserACL databaseID d.Id req])

/-- The function `resourceVultrDatabaseUserRead`. -/
def resourceVultrDatabaseUserRead (client : Client) (d : ResourceData) (calls : List Call) :
    Outcome :=
  let databaseID := d.GetString "database_id"
  let response := client.GetUser calls databaseID d.Id
  let calls := calls ++ [Call.GetUser databaseID d.Id]
  match response with
  | .error err =>
    ⟨Errorf ("error getting database user (" ++ d.Id ++ "): " ++ err.msg), d, calls⟩
  | .ok databaseUser =>
    match d.SetString "username" databaseUser.Username with
    | .error err =>
      ⟨Errorf ("unable to set resource database user `username` read value: " ++ err),
        d, calls⟩
    | .ok d =>
    match d.SetString "password" databaseUser.Password with
    | .error err =>
      ⟨Errorf ("unable to set resource database user `password` read value: " ++ err),
        d, calls⟩
    | .ok d =>
    let encryptionStep : Except String ResourceData :=
      if databaseUser.Encryption ≠ "" then
        let encryptionRaw :=
          match databaseUser.Encryption with
          | "Legacy (MySQL 5.x)" => "mysql_native_password"
          | _ => "caching_sha2_password"
        d.SetString "encryption" encryptionRaw
      else .ok d
    match encryptionStep with
    | .error err =>
      ⟨Errorf ("unable to set resource database user `encryption` read value: " ++ err),
        d, calls⟩
    | .ok d =>
    match d.SetString "permission" databaseUser.Permission with
    | .error err =>
      ⟨Errorf ("unable to set resource database user `permission` read value: " ++ err),
        d, calls⟩
    | .ok d =>
    match d.SetString "access_key" databaseUser.AccessKey with
    | .error err =>
      ⟨Errorf ("unable to set resource database user `access_key` read value: " ++ err),
        d, calls⟩
    | .ok d =>
    match d.SetString "access_cert" databaseUser.AccessCert with
    | .error err =>
      ⟨Errorf ("unable to set resource database user `access_cert` read value: " ++ err),
        d, calls⟩
    | .ok d =>
    let accessControlStep : Except String ResourceData :=
      if databaseUser.AccessControl ≠ none then
        d.SetSet "access_control" (flattenUserACL databaseUser)
      else .ok d
    match accessControlStep with
    | .error err =>
      ⟨Errorf ("unable to set resource database user `access_control` read value: " ++ err),
        d, calls⟩
    | .ok d => ⟨[], d, calls⟩

/-- The function `resourceVultrDatabaseUserDelete`. -/
def resourceVultrDatabaseUserDelete (client : Client) (d : ResourceData) (calls : List Call) :
    Outcome :=
  let databaseID := d.GetString "database_id"
  match client.DeleteUser calls databaseID d.Id with
  | some err =>
    ⟨Errorf ("error destroying database user " ++ d.Id ++ " : " ++ err.msg), d,
      calls ++ [Call.DeleteUser databaseID d.Id]⟩
  | none => ⟨[], d, calls ++ [Call.DeleteUser databaseID d.Id]⟩

/-- The function `resourceVultrDatabaseUserCreate`. -/
def resourceVultrDatabaseUserCreate (client : Client) (d : ResourceData) (calls : List Call) :
    Outcome :=
  let databaseID := d.GetString "database_id"
  let req : DatabaseUserCreateReq :=
    { Username := d.GetString "username"
      Password := d.GetString "password"
      Encryption := d.GetString "encryption"
      Permission := d.GetString "permission" }
  let response := client.CreateUser calls databaseID req
  let calls := calls ++ [Call.CreateUser databaseID req]
  match response with
  | .error err => ⟨Errorf ("error creating database user: " ++ err.msg), d, calls⟩
  | .ok databaseUser =>
    let d := d.SetId databaseUser.Username
    -- Redis/Valkey user access control can only be updated after creation
    let (accessControl, accessControlOK) := d.GetOkSet "access_control"
    if accessControlOK then
      match updateUserACL client databaseID d accessControl calls with
      | (some err, calls) =>
        ⟨Errorf ("error updating user access control: " ++ err.msg), d, calls⟩
      | (none, calls) => resourceVultrDatabaseUserRead client d calls
    else resourceVultrDatabaseUserRead client d calls

/-- The function `resourceVultrDatabaseUserUpdate`.  The three guarded blocks of the source
run in sequence; each is written here as a step that either returns the error diagnostics or
hands the calls issued so far to the next step. -/
def resourceVultrDatabaseUserUpdate (client : Client) (d : ResourceData) (calls : List Call) :
    Outcome :=
  let databaseID := d.GetString "database_id"
  let permissionStep : List Call → Outcome := fun calls =>
    if d.HasChange "permission" then
      let permission := (d.GetChangeString "permission").2
      let req2 : DatabaseUserACLReq := { Permission := permission }
      match client.UpdateUserACL calls databaseID d.Id req2 with
      | .error err =>
        ⟨Errorf ("error updating user permission " ++ d.Id ++ " : " ++ err.msg), d,
          calls ++ [Call.UpdateUserACL databaseID d.Id req2]⟩
      | .ok _ =>
        resourceVultrDatabaseUserRead client d
          (calls ++ [Call.UpdateUserACL databaseID d.Id req2])
    else resourceVultrDatabaseUserRead client d calls
  let accessControlStep : List Call → Outcome := fun calls =>
    if d.HasChange "access_control" then
      let accessControl := (d.GetChangeSet "access_control").2
      match updateUserACL client databaseID d accessControl calls with
      | (some err, calls) =>
        ⟨Errorf ("error updating user access control: " ++ err.msg), d, calls⟩
      | (none, calls) => permissionStep calls
    else permissionStep calls
  if d.HasChange "password" then
    let password := (d.GetChangeString "password").2
    let req : DatabaseUserUpdateReq := { Password := password }
    match client.UpdateUser calls databaseID d.Id req with
    | .error err =>
      ⟨Errorf ("error updating database user " ++ d.Id ++ " : " ++ err.msg), d,
        calls ++ [Call.UpdateUser databaseID d.Id req]⟩
    | .ok _ => accessControlStep (calls ++ [Call.UpdateUser databaseID d.Id req])
  else accessControlStep calls

/-! ## Vocabulary for the statements -/

/-- The slice with the elements of `set` that is nil when `set` is empty and non-nil
otherwise. -/
def sliceOf : List String → StringSlice
  | [] => StringSlice.nil
  | r :: rest => StringSlice.mk (r :: rest)

/-- The `UpdateUserACL` calls that `updateUserACL` has to issue for the elements of
`accessControl`, one for each element, in order. -/
def aclCallsOf (databaseID userID : String) (accessControl : List UserACL) : List Call :=
  accessControl.map (fun v => Call.UpdateUserACL databaseID userID (aclReqOf v))

/-- The update calls applicable to `d`, in the order password, access control, permission:
a concern contributes its calls when `d.HasChange` reports it changed. -/
def applicableUpdateCalls (d : ResourceData) : List Call :=
  (if d.HasChange "password" then
      [Call.UpdateUser (d.GetString "database_id") d.Id
        { Password := (d.GetChangeString "password").2 }]
    else []) ++
  (if d.HasChange "access_control" then
      aclCallsOf (d.GetString "database_id") d.Id (d.GetChangeSet "access_control").2
    else []) ++
  (if d.HasChange "permission" then
      [Call.UpdateUserACL (d.GetString "database_id") d.Id
        { Permission := (d.GetChangeString "permission").2 }]
    else [])

/-- The call is the credential update `UpdateUser`. -/
def Call.isPasswordUpdate : Call → Bool
  | .UpdateUser _ _ _ => true
  | _ => false

/-- The call is an `UpdateUserACL` whose request carries at least one of the four lists. -/
def Call.isACLUpdate : Call → Bool
  | .UpdateUserACL _ _ req =>
    req.ACLCategories.isSome || req.ACLChannels.isSome || req.ACLCommands.isSome ||
      req.ACLKeys.isSome
  | _ => false

/-- The call is an `UpdateUserACL` whose request leaves all four lists unset: the
permission update. -/
def Call.isPermissionUpdate : Call → Bool
  | .UpdateUserACL _ _ req =>
    req.ACLCategories.isNone && req.ACLChannels.isNone && req.ACLCommands.isNone &&
      req.ACLKeys.isNone
  | _ => false

/-- The call is the refreshing `GetUser`. -/
def Call.isGetUser : Call → Bool
  | .GetUser _ _ => true
  | _ => false

/-- The way an update that has the calls `plan` left to issue, after `calls`, ends in
`out`: either every call of `plan` succeeds and `out` is the read that follows them, or the
calls stop at the first failing one, `out` holds one error diagnostic and the resource data
is the one the update started with. -/
def EndsAfter (client : Client) (d : ResourceData) (calls plan : List Call) (out : Outcome) :
    Prop :=
  (client.allSucceed calls plan = true ∧
    out = resourceVultrDatabaseUserRead client d (calls ++ plan)) ∨
  (∃ done failed later err,
    plan = done ++ failed :: later ∧
    client.allSucceed calls done = true ∧
    client.failure (calls ++ done) failed = some err ∧
    out.calls = calls ++ done ++ [failed] ∧
    (∃ summary, out.diags = Errorf summary) ∧
    out.d = d)

/-! ## Concrete values used in the examples -/

/-- An access-control block with one category and one key pattern. -/
def aclA : UserACL :=
  { acl_categories := ["+@read"], acl_channels := [], acl_commands := [], acl_keys := ["*"] }

/-- A second access-control block. -/
def aclB : UserACL :=
  { acl_categories := [], acl_channels := ["news"], acl_commands := ["+get"], acl_keys := [] }

/-- The user the remote returns in the end-to-end scenario of the spec. -/
def aliceObserved : DatabaseUser :=
  { Username := "alice", Password := "generated", Encryption := "caching_sha2_password",
    AccessControl := none, Permission := "read", AccessKey := "k", AccessCert := "c" }

/-- A remote on which every call succeeds and every user-returning call returns
`aliceObserved`. -/
def okClient : Client :=
  { CreateUser := fun _ _ _ => .ok aliceObserved
    GetUser := fun _ _ _ => .ok aliceObserved
    UpdateUser := fun _ _ _ _ => .ok aliceObserved
    UpdateUserACL := fun _ _ _ _ => .ok aliceObserved
    DeleteUser := fun _ _ _ => none }

/-- A remote on which the user does not exist: reads, updates and deletes answer with a
not-found error. -/
def absentClient : Client :=
  { CreateUser := fun _ _ _ => .ok aliceObserved
    GetUser := fun _ _ _ => .error ⟨true, "Not found"⟩
    UpdateUser := fun _ _ _ _ => .error ⟨true, "Not found"⟩
    UpdateUserACL := fun _ _ _ _ => .error ⟨true, "Not found"⟩
    DeleteUser := fun _ _ _ => some ⟨true, "Not found"⟩ }

/-- A remote on which every call fails with a server error. -/
def failingClient : Client :=
  { CreateUser := fun _ _ _ => .error ⟨false, "Server error"⟩
    GetUser := fun _ _ _ => .error ⟨false, "Server error"⟩
    UpdateUser := fun _ _ _ _ => .error ⟨false, "Server error"⟩
    UpdateUserACL := fun _ _ _ _ => .error ⟨false, "Server error"⟩
    DeleteUser := fun _ _ _ => some ⟨false, "Server error"⟩ }

/-- The user `aliceObserved` with the access-control object that corresponds to `aclA`. -/
def aliceWithACL : DatabaseUser :=
  { aliceObserved with
    AccessControl := some { ACLCategories := .mk ["+@read"], ACLChannels := .mk [],
                            ACLCommands := .nil, ACLKeys := .mk ["*"] } }

/-- The user `aliceObserved` with an access-control object whose category list names one
category twice. -/
def aliceWithRepeats : DatabaseUser :=
  { aliceObserved with
    AccessControl := some { ACLCategories := .mk ["+@write", "+@read", "+@read"],
                            ACLChannels := .nil, ACLCommands := .nil, ACLKeys := .mk ["*"] } }

/-- A remote on which every call succeeds and every user-returning call returns
`aliceWithRepeats`. -/
def repeatsClient : Client :=
  { CreateUser := fun _ _ _ => .ok aliceWithRepeats
    GetUser := fun _ _ _ => .ok aliceWithRepeats
    UpdateUser := fun _ _ _ _ => .ok aliceWithRepeats
    UpdateUserACL := fun _ _ _ _ => .ok aliceWithRepeats
    DeleteUser := fun _ _ _ => none }

/-- A hash code for strings, for the examples: a polynomial code of the characters. -/
def exampleStringCode (s : String) : Nat :=
  s.toList.foldl (fun code c => (31 * code + c.toNat) % 1000003) 7

/-- Hash codes for the examples: `exampleStringCode` for strings, and for a block the same
polynomial code over the codes of its strings. -/
def exampleSetFuncs : SetFuncs :=
  { stringCode := exampleStringCode
    blockCode := fun block =>
      (block.acl_categories ++ block.acl_channels ++ block.acl_commands ++
        block.acl_keys).foldl (fun code s => (31 * code + exampleStringCode s) % 1000003) 7 }

/-- A remote on which every call succeeds and every user-returning call returns
`aliceWithACL`. -/
def aclClient : Client :=
  { CreateUser := fun _ _ _ => .ok aliceWithACL
    GetUser := fun _ _ _ => .ok aliceWithACL
    UpdateUser := fun _ _ _ _ => .ok aliceWithACL
    UpdateUserACL := fun _ _ _ _ => .ok aliceWithACL
    DeleteUser := fun _ _ _ => none }

/-- The resource data of an existing user `alice` of database `db1`, with nothing planned
to change. -/
def aliceData : ResourceData :=
  { id := "alice"
    state := { database_id := "db1", username := "alice", password := "p1",
               permission := "read" }
    plan := { database_id := "db1", username := "alice", password := "p1",
              permission := "read" }
    schema := exampleSetFuncs }

/-- The resource data of `alice` whose prior state and plan hold the access-control block
`aclA`. -/
def cachedACLData : ResourceData :=
  { aliceData with
    state := { aliceData.state with access_control := [aclA] }
    plan := { aliceData.plan with access_control := [aclA] } }

/-- The desired state of the end-to-end scenario of the spec: a new user `alice` of database
`db1` with permission `read`, nothing else declared, no prior state. -/
def createData : ResourceData :=
  { plan := { database_id := "db1", username := "alice", permission := "read" }
    schema := exampleSetFuncs }

/-- The desired state `createData` that also declares the access-control block `aclA`. -/
def createACLData : ResourceData :=
  { plan := { database_id := "db1", username := "alice", permission := "read",
              access_control := [aclA] }
    schema := exampleSetFuncs }

/-- An update of `alice` in which only the permission changes, from `read` to `write`; the
password and the access-control block `aclA` stay as they are. -/
def permissionChangeData : ResourceData :=
  { cachedACLData with plan := { cachedACLData.plan with permission := "write" } }

/-- An update of `alice` in which the access-control block `aclA` of the prior state is
replaced by no block at all. -/
def aclRemovedData : ResourceData :=
  { aliceData with state := { aliceData.state with access_control := [aclA] } }

/-- An update of `alice` in which password, access control and permission all change. -/
def allChangedData : ResourceData :=
  { aliceData with
    plan := { aliceData.plan with password := "p2", permission := "write",
                                  access_control := [aclB] } }

/-! ## Reading and writing resource data -/

@[simp]
theorem setString_username (d : ResourceData) (v : String) :
    d.SetString "username" v =
      .ok { d with written := { d.written with username := some v } } := rfl

@[simp]
theorem setString_password (d : ResourceData) (v : String) :
    d.SetString "password" v =
      .ok { d with written := { d.written with password := some v } } := rfl

@[simp]
theorem setString_encryption (d : ResourceData) (v : String) :
    d.SetString "encryption" v =
      .ok { d with written := { d.written with encryption := some v } } := rfl

@[simp]
theorem setString_permission (d : ResourceData) (v : String) :
    d.SetString "permission" v =
      .ok { d with written := { d.written with permission := some v } } := rfl

@[simp]
theorem setString_access_key (d : ResourceData) (v : String) :
    d.SetString "access_key" v =
      .ok { d with written := { d.written with access_key := some v } } := rfl

@[simp]
theorem setString_access_cert (d : ResourceData) (v : String) :
    d.SetString "access_cert" v =
      .ok { d with written := { d.written with access_cert := some v } } := rfl

@[simp]
theorem setSet_access_control (d : ResourceData) (l : List FlatUserACL) :
    d.SetSet "access_control" l =
      .ok { d with written := { d.written with access_control := some (d.toSet l) } } := rfl

theorem getString_database_id (d : ResourceData) :
    d.GetString "database_id" = d.written.database_id.getD d.plan.database_id := rfl

@[simp]
theorem getString_username (d : ResourceData) :
    d.GetString "username" = d.written.username.getD d.plan.username := rfl

@[simp]
theorem getString_password (d : ResourceData) :
    d.GetString "password" = d.written.password.getD d.plan.password := rfl

@[simp]
theorem getString_encryption (d : ResourceData) :
    d.GetString "encryption" = d.written.encryption.getD d.plan.encryption := rfl

@[simp]
theorem getString_permission (d : ResourceData) :
    d.GetString "permission" = d.written.permission.getD d.plan.permission := rfl

@[simp]
theorem getString_access_key (d : ResourceData) :
    d.GetString "access_key" = d.written.access_key.getD d.plan.access_key := rfl

@[simp]
theorem getString_access_cert (d : ResourceData) :
    d.GetString "access_cert" = d.written.access_cert.getD d.plan.access_cert := rfl

@[simp]
theorem getSet_access_control (d : ResourceData) :
    d.GetSet "access_control" = d.written.access_control.getD d.plan.access_control := rfl

@[simp]
theorem getChangeString_password (d : ResourceData) :
    d.GetChangeString "password" = (d.state.password, d.plan.password) := rfl

@[simp]
theorem getChangeString_permission (d : ResourceData) :
    d.GetChangeString "permission" = (d.state.permission, d.plan.permission) := rfl

@[simp]
theorem getChangeSet_access_control (d : ResourceData) :
    d.GetChangeSet "access_control" = (d.state.access_control, d.plan.access_control) := rfl

@[simp]
theorem hasChange_password (d : ResourceData) :
    d.HasChange "password" = decide (d.state.password ≠ d.plan.password) := rfl

@[simp]
theorem hasChange_permission (d : ResourceData) :
    d.HasChange "permission" = decide (d.state.permission ≠ d.plan.permission) := rfl

@[simp]
theorem hasChange_access_control (d : ResourceData) :
    d.HasChange "access_control" =
      decide (d.state.access_control ≠ d.plan.access_control) := rfl

/-! ## The read function -/

/-- The token written to `encryption` for a non-empty observed label. -/
theorem encryption_token (label : String) :
    (match label with
      | "Legacy (MySQL 5.x)" => "mysql_native_password"
      | _ => "caching_sha2_password") =
      if label = "Legacy (MySQL 5.x)" then "mysql_native_password"
      else "caching_sha2_password" := by
  split
  · rfl
  · rename_i h
    rw [if_neg (fun hl => h hl)]

/-- A read always issues exactly one call, `GetUser`. -/
theorem read_calls (client : Client) (d : ResourceData) (calls : List Call) :
    (resourceVultrDatabaseUserRead client d calls).calls =
      calls ++ [Call.GetUser (d.GetString "database_id") d.Id] := by
  unfold resourceVultrDatabaseUserRead
  simp only [setString_username, setString_password, setString_permission,
    setString_access_key, setString_access_cert, setString_encryption, setSet_access_control]
  cases client.GetUser calls (d.GetString "database_id") d.Id with
  | error err => rfl
  | ok u =>
    by_cases he : u.Encryption = "" <;> by_cases ha : u.AccessControl = none <;>
      simp [he, ha]

/-- A read whose `GetUser` call fails returns the error and leaves the resource data as it
was. -/
theorem read_error (client : Client) (d : ResourceData) (calls : List Call)
    (err : RemoteError)
    (h : client.GetUser calls (d.GetString "database_id") d.Id = .error err) :
    resourceVultrDatabaseUserRead client d calls =
      ⟨Errorf ("error getting database user (" ++ d.Id ++ "): " ++ err.msg), d,
        calls ++ [Call.GetUser (d.GetString "database_id") d.Id]⟩ := by
  unfold resourceVultrDatabaseUserRead
  simp only [h]

/-- A read whose `GetUser` call succeeds returns no diagnostics and writes the observed
values: every string attribute but `encryption` verbatim, `encryption` normalized unless the
observed label is empty, and `access_control` only when the observed user has one. -/
theorem read_ok (client : Client) (d : ResourceData) (calls : List Call) (u : DatabaseUser)
    (h : client.GetUser calls (d.GetString "database_id") d.Id = .ok u) :
    resourceVultrDatabaseUserRead client d calls =
      ⟨[],
        { d with written :=
          { d.written with
            username := some u.Username
            password := some u.Password
            encryption :=
              if u.Encryption = "" then d.written.encryption
              else if u.Encryption = "Legacy (MySQL 5.x)" then some "mysql_native_password"
              else some "caching_sha2_password"
            permission := some u.Permission
            access_key := some u.AccessKey
            access_cert := some u.AccessCert
            access_control :=
              if u.AccessControl = none then d.written.access_control
              else some (d.toSet (flattenUserACL u)) } },
        calls ++ [Call.GetUser (d.GetString "database_id") d.Id]⟩ := by
  unfold resourceVultrDatabaseUserRead
  simp only [h, setString_username, setString_password, setString_permission,
    setString_access_key, setString_access_cert, setString_encryption, setSet_access_control,
    encryption_token]
  by_cases he : u.Encryption = "" <;> by_cases ha : u.AccessControl = none <;>
    by_cases hl : u.Encryption = "Legacy (MySQL 5.x)" <;>
    simp [he, ha, hl, ResourceData.toSet]

/-! ## The access-control update -/

theorem foldl_append_mk (acc set : List String) :
    set.foldl (fun xs r => StringSlice.append xs r) (StringSlice.mk acc) =
      StringSlice.mk (acc ++ set) := by
  induction set generalizing acc with
  | nil => simp
  | cons r rest ih =>
    have hstep : StringSlice.append (StringSlice.mk acc) r = StringSlice.mk (acc ++ [r]) := rfl
    rw [List.foldl_cons, hstep, ih]
    simp

/-- The copying loop yields the slice of the elements of the set it ranges over, the nil
slice when there is none. -/
theorem appendAll_eq (set : List String) : appendAll set = sliceOf set := by
  cases set with
  | nil => rfl
  | cons r rest =>
    have hstep : StringSlice.append StringSlice.nil r = StringSlice.mk [r] := rfl
    unfold appendAll
    rw [List.foldl_cons, hstep, foldl_append_mk]
    rfl

/-- The request built for an element carries the four declared sets and no permission. -/
theorem aclReqOf_eq (v : UserACL) :
    aclReqOf v =
      { ACLCategories := some (sliceOf v.acl_categories),
        ACLChannels := some (sliceOf v.acl_channels),
        ACLCommands := some (sliceOf v.acl_commands),
        ACLKeys := some (sliceOf v.acl_keys), Permission := "" } := by
  simp [aclReqOf, appendAll_eq]

theorem allSucceed_append (client : Client) (history p q : List Call) :
    client.allSucceed history (p ++ q) =
      (client.allSucceed history p && client.allSucceed (history ++ p) q) := by
  induction p generalizing history with
  | nil => simp [Client.allSucceed]
  | cons c rest ih => simp [Client.allSucceed, ih, Bool.and_assoc]

/-- The two ways `updateUserACL` ends: every element's call succeeded and all were issued, or
the calls stop at the first one that fails, whose error is returned. -/
theorem updateUserACL_cases (client : Client) (databaseID : String) (d : ResourceData)
    (accessControl : List UserACL) (calls : List Call) :
    (client.allSucceed calls (aclCallsOf databaseID d.Id accessControl) = true ∧
      updateUserACL client databaseID d accessControl calls =
        (none, calls ++ aclCallsOf databaseID d.Id accessControl)) ∨
    (∃ done failed later err,
      accessControl = done ++ failed :: later ∧
      client.allSucceed calls (aclCallsOf databaseID d.Id done) = true ∧
      client.failure (calls ++ aclCallsOf databaseID d.Id done)
        (Call.UpdateUserACL databaseID d.Id (aclReqOf failed)) = some err ∧
      updateUserACL client databaseID d accessControl calls =
        (some err, calls ++ aclCallsOf databaseID d.Id done ++
          [Call.UpdateUserACL databaseID d.Id (aclReqOf failed)])) := by
  induction accessControl generalizing calls with
  | nil => left; simp [aclCallsOf, Client.allSucceed, updateUserACL]
  | cons v rest ih =>
    cases hresp : client.UpdateUserACL calls databaseID d.Id (aclReqOf v) with
    | error err =>
      right
      refine ⟨[], v, rest, err, rfl, by simp [aclCallsOf, Client.allSucceed], ?_, ?_⟩
      · simp [aclCallsOf, Client.failure, hresp]
      · simp [aclCallsOf, updateUserACL, hresp]
    | ok u =>
      rcases ih (calls ++ [Call.UpdateUserACL databaseID d.Id (aclReqOf v)]) with
        ⟨hall, hres⟩ | ⟨done, failed, later, err, hsplit, hall, hfail, hres⟩
      · left
        refine ⟨?_, ?_⟩
        · simpa [aclCallsOf, Client.allSucceed, Client.failure, hresp] using hall
        · simp [aclCallsOf, updateUserACL, hresp] at hres ⊢
          exact hres
      · right
        refine ⟨v :: done, failed, later, err, by simp [hsplit], ?_, ?_, ?_⟩
        · simpa [aclCallsOf, Client.allSucceed, Client.failure, hresp] using hall
        · simpa [aclCallsOf] using hfail
        · simp [aclCallsOf, updateUserACL, hresp] at hres ⊢
          exact hres

/-! ## The update function -/

theorem endsAfter_nil (client : Client) (d : ResourceData) (calls : List Call) :
    EndsAfter client d calls [] (resourceVultrDatabaseUserRead client d calls) := by
  left
  simp [Client.allSucceed]

theorem endsAfter_append_ok (client : Client) (d : ResourceData) (calls p q : List Call)
    (out : Outcome) (hp : client.allSucceed calls p = true)
    (h : EndsAfter client d (calls ++ p) q out) : EndsAfter client d calls (p ++ q) out := by
  rcases h with ⟨hall, hout⟩ | ⟨done, failed, later, err, hsplit, hall, hfail, hcalls, hdiags, hd⟩
  · left
    exact ⟨by simp [allSucceed_append, hp, hall], by simpa using hout⟩
  · right
    refine ⟨p ++ done, failed, later, err, by simp [hsplit],
      by simp [allSucceed_append, hp, hall], by simpa using hfail, by simpa using hcalls,
      hdiags, hd⟩

theorem endsAfter_append_fail (client : Client) (d : ResourceData)
    (calls done later q : List Call) (failed : Call) (err : RemoteError) (out : Outcome)
    (hall : client.allSucceed calls done = true)
    (hfail : client.failure (calls ++ done) failed = some err)
    (hcalls : out.calls = calls ++ done ++ [failed])
    (hdiags : ∃ summary, out.diags = Errorf summary) (hd : out.d = d) :
    EndsAfter client d calls ((done ++ failed :: later) ++ q) out := by
  right
  exact ⟨done, failed, later ++ q, err, by simp, hall, hfail, hcalls, hdiags, hd⟩

/-- The permission block of the update followed by the read. -/
theorem update_permission_step (client : Client) (d : ResourceData) (calls : List Call) :
    EndsAfter client d calls
      (if d.HasChange "permission" then
          [Call.UpdateUserACL (d.GetString "database_id") d.Id
            { Permission := (d.GetChangeString "permission").2 }]
        else [])
      (if d.HasChange "permission" then
        match client.UpdateUserACL calls (d.GetString "database_id") d.Id
            { Permission := (d.GetChangeString "permission").2 } with
        | .error err =>
          ⟨Errorf ("error updating user permission " ++ d.Id ++ " : " ++ err.msg), d,
            calls ++ [Call.UpdateUserACL (d.GetString "database_id") d.Id
              { Permission := (d.GetChangeString "permission").2 }]⟩
        | .ok _ =>
          resourceVultrDatabaseUserRead client d
            (calls ++ [Call.UpdateUserACL (d.GetString "database_id") d.Id
              { Permission := (d.GetChangeString "permission").2 }])
      else resourceVultrDatabaseUserRead client d calls) := by
  by_cases hperm : d.HasChange "permission" = true
  · rw [if_pos hperm, if_pos hperm]
    cases hresp : client.UpdateUserACL calls (d.GetString "database_id") d.Id
        { Permission := (d.GetChangeString "permission").2 } with
    | error err =>
      have h := endsAfter_append_fail client d calls [] [] []
        (Call.UpdateUserACL (d.GetString "database_id") d.Id
          { Permission := (d.GetChangeString "permission").2 }) err
        ⟨Errorf ("error updating user permission " ++ d.Id ++ " : " ++ err.msg), d,
          calls ++ [Call.UpdateUserACL (d.GetString "database_id") d.Id
            { Permission := (d.GetChangeString "permission").2 }]⟩
        (by simp [Client.allSucceed]) (by simp only [Client.failure, List.append_nil, hresp]) (by simp)
        ⟨_, rfl⟩ rfl
      simpa using h
    | ok u =>
      have h := endsAfter_append_ok client d calls
        [Call.UpdateUserACL (d.GetString "database_id") d.Id
          { Permission := (d.GetChangeString "permission").2 }] [] _
        (by simp only [Client.allSucceed, Client.failure, hresp, Option.isNone_none, Bool.and_self])
        (endsAfter_nil client d _)
      simpa using h
  · rw [if_neg hperm, if_neg hperm]
    exact endsAfter_nil client d calls

/-- The access-control block of the update followed by the rest of the update. -/
theorem update_access_control_step (client : Client) (d : ResourceData) (calls q : List Call)
    (next : List Call → Outcome) (hnext : ∀ calls, EndsAfter client d calls q (next calls)) :
    EndsAfter client d calls
      ((if d.HasChange "access_control" then
          aclCallsOf (d.GetString "database_id") d.Id (d.GetChangeSet "access_control").2
        else []) ++ q)
      (if d.HasChange "access_control" then
        match updateUserACL client (d.GetString "database_id") d
            (d.GetChangeSet "access_control").2 calls with
        | (some err, calls) =>
          ⟨Errorf ("error updating user access control: " ++ err.msg), d, calls⟩
        | (none, calls) => next calls
      else next calls) := by
  by_cases hac : d.HasChange "access_control" = true
  · rw [if_pos hac, if_pos hac]
    rcases updateUserACL_cases client (d.GetString "database_id") d
        (d.GetChangeSet "access_control").2 calls with
      ⟨hall, hres⟩ | ⟨done, failed, later, err, hsplit, hall, hfail, hres⟩
    · rw [hres]
      exact endsAfter_append_ok client d calls _ q _ hall (hnext _)
    · rw [hres, hsplit]
      have h := endsAfter_append_fail client d calls
        (aclCallsOf (d.GetString "database_id") d.Id done)
        (aclCallsOf (d.GetString "database_id") d.Id later) q
        (Call.UpdateUserACL (d.GetString "database_id") d.Id (aclReqOf failed)) err
        ⟨Errorf ("error updating user access control: " ++ err.msg), d,
          calls ++ aclCallsOf (d.GetString "database_id") d.Id done ++
            [Call.UpdateUserACL (d.GetString "database_id") d.Id (aclReqOf failed)]⟩
        hall hfail rfl ⟨_, rfl⟩ rfl
      simpa [aclCallsOf] using h
  · rw [if_neg hac, if_neg hac]
    simpa using hnext calls

/-- The password block of the update followed by the rest of the update. -/
theorem update_password_step (client : Client) (d : ResourceData) (calls q : List Call)
    (next : List Call → Outcome) (hnext : ∀ calls, EndsAfter client d calls q (next calls)) :
    EndsAfter client d calls
      ((if d.HasChange "password" then
          [Call.UpdateUser (d.GetString "database_id") d.Id
            { Password := (d.GetChangeString "password").2 }]
        else []) ++ q)
      (if d.HasChange "password" then
        match client.UpdateUser calls (d.GetString "database_id") d.Id
            { Password := (d.GetChangeString "password").2 } with
        | .error err =>
          ⟨Errorf ("error updating database user " ++ d.Id ++ " : " ++ err.msg), d,
            calls ++ [Call.UpdateUser (d.GetString "database_id") d.Id
              { Password := (d.GetChangeString "password").2 }]⟩
        | .ok _ =>
          next (calls ++ [Call.UpdateUser (d.GetString "database_id") d.Id
            { Password := (d.GetChangeString "password").2 }])
      else next calls) := by
  by_cases hpw : d.HasChange "password" = true
  · rw [if_pos hpw, if_pos hpw]
    cases hresp : client.UpdateUser calls (d.GetString "database_id") d.Id
        { Password := (d.GetChangeString "password").2 } with
    | error err =>
      have h := endsAfter_append_fail client d calls [] [] q
        (Call.UpdateUser (d.GetString "database_id") d.Id
          { Password := (d.GetChangeString "password").2 }) err
        ⟨Errorf ("error updating database user " ++ d.Id ++ " : " ++ err.msg), d,
          calls ++ [Call.UpdateUser (d.GetString "database_id") d.Id
            { Password := (d.GetChangeString "password").2 }]⟩
        (by simp [Client.allSucceed]) (by simp only [Client.failure, List.append_nil, hresp])
        (by simp) ⟨_, rfl⟩ rfl
      simpa using h
    | ok u =>
      exact endsAfter_append_ok client d calls _ q _
        (by simp only [Client.allSucceed, Client.failure, hresp, Option.isNone_none,
          Bool.and_self]) (hnext _)
  · rw [if_neg hpw, if_neg hpw]
    simpa using hnext calls

/-- The two ways an update ends: every applicable call succeeded, all were issued in order and
the update is the read that follows them; or the calls stop at the first one that fails, the
update returns one error diagnostic and the resource data is left as it was. -/
theorem update_cases (client : Client) (d : ResourceData) (calls : List Call) :
    EndsAfter client d calls (applicableUpdateCalls d)
      (resourceVultrDatabaseUserUpdate client d calls) := by
  unfold resourceVultrDatabaseUserUpdate applicableUpdateCalls
  rw [List.append_assoc]
  exact update_password_step client d calls _ _
    (fun calls => update_access_control_step client d calls _ _
      (fun calls => update_permission_step client d calls))

/-! ## Delete -/

/-- C1 (as stated, refuted): on a remote where the user does not exist, `DeleteUser` answers
with a not-found error and `resourceVultrDatabaseUserDelete` returns an error diagnostic, not
success. -/
theorem delete_absent_user_returns_error :
    absentClient.DeleteUser [] (aliceData.GetString "database_id") aliceData.Id =
        some ⟨true, "Not found"⟩ ∧
      (resourceVultrDatabaseUserDelete absentClient aliceData []).diags =
        [⟨Severity.Error, "error destroying database user alice : Not found"⟩] ∧
      (resourceVultrDatabaseUserDelete absentClient aliceData []).diags ≠ [] := by
  decide

/-- C1 (amended): `resourceVultrDatabaseUserDelete` issues exactly one `DeleteUser` call and
returns success exactly when that call returns no error; on any error of the call, a
not-found error included, it returns the single diagnostic
"error destroying database user <id> : <error>". -/
theorem delete_succeeds_iff_remote_succeeds (client : Client) (d : ResourceData)
    (calls : List Call) :
    ((resourceVultrDatabaseUserDelete client d calls).diags = [] ↔
        client.DeleteUser calls (d.GetString "database_id") d.Id = none) ∧
      (∀ err, client.DeleteUser calls (d.GetString "database_id") d.Id = some err →
        (resourceVultrDatabaseUserDelete client d calls).diags =
          Errorf ("error destroying database user " ++ d.Id ++ " : " ++ err.msg)) ∧
      (resourceVultrDatabaseUserDelete client d calls).calls =
        calls ++ [Call.DeleteUser (d.GetString "database_id") d.Id] := by
  cases h : client.DeleteUser calls (d.GetString "database_id") d.Id with
  | none => simp [resourceVultrDatabaseUserDelete, h]
  | some err => simp [resourceVultrDatabaseUserDelete, h, Errorf]

/-- C1 (amended), at a remote that fails with a server error and at one that succeeds. -/
theorem delete_succeeds_iff_remote_succeeds_witness :
    (resourceVultrDatabaseUserDelete okClient aliceData []).diags = [] ∧
      (resourceVultrDatabaseUserDelete failingClient aliceData []).diags =
        Errorf ("error destroying database user " ++ aliceData.Id ++ " : " ++ "Server error") :=
  ⟨(delete_succeeds_iff_remote_succeeds okClient aliceData []).1.2 rfl,
    (delete_succeeds_iff_remote_succeeds failingClient aliceData []).2.1 _ rfl⟩

/-! ## Read -/

/-- C4: after a read whose `GetUser` call succeeds (the read then returns no diagnostics),
`encryption` is "mysql_native_password" when the observed label is "Legacy (MySQL 5.x)",
"caching_sha2_password" for every other non-empty label, and its value before the read when
the label is empty. -/
theorem read_normalizes_encryption (client : Client) (d : ResourceData) (calls : List Call)
    (u : DatabaseUser)
    (h : client.GetUser calls (d.GetString "database_id") d.Id = .ok u) :
    (resourceVultrDatabaseUserRead client d calls).diags = [] ∧
      (u.Encryption = "Legacy (MySQL 5.x)" →
        (resourceVultrDatabaseUserRead client d calls).d.GetString "encryption" =
          "mysql_native_password") ∧
      (u.Encryption ≠ "" → u.Encryption ≠ "Legacy (MySQL 5.x)" →
        (resourceVultrDatabaseUserRead client d calls).d.GetString "encryption" =
          "caching_sha2_password") ∧
      (u.Encryption = "" →
        (resourceVultrDatabaseUserRead client d calls).d.GetString "encryption" =
          d.GetString "encryption") := by
  rw [read_ok client d calls u h]
  refine ⟨rfl, ?_, ?_, ?_⟩
  · intro hl
    simp [hl]
  · intro he hl
    simp [he, hl]
  · intro he
    simp [he]

/-- C4 at concrete inputs: the label "caching_sha2_password" falls in the default bucket. -/
theorem read_normalizes_encryption_witness :
    okClient.GetUser [] (aliceData.GetString "database_id") aliceData.Id = .ok aliceObserved ∧
      (resourceVultrDatabaseUserRead okClient aliceData []).diags = [] ∧
      (resourceVultrDatabaseUserRead okClient aliceData []).d.GetString "encryption" =
        "caching_sha2_password" :=
  ⟨rfl, (read_normalizes_encryption okClient aliceData [] aliceObserved rfl).1,
    (read_normalizes_encryption okClient aliceData [] aliceObserved rfl).2.2.1
      (by decide) (by decide)⟩

/-- C9 (as stated, refuted): the resource data holds a cached `access_control` block, the
observed user has no access-control object, the read succeeds, and the cached block is still
there after the read: the field is not empty. -/
theorem read_without_acl_keeps_cached_acl :
    okClient.GetUser [] (cachedACLData.GetString "database_id") cachedACLData.Id =
        .ok aliceObserved ∧
      aliceObserved.AccessControl = none ∧
      (resourceVultrDatabaseUserRead okClient cachedACLData []).diags = [] ∧
      (resourceVultrDatabaseUserRead okClient cachedACLData []).d.GetSet "access_control" =
        [aclA] ∧
      (resourceVultrDatabaseUserRead okClient cachedACLData []).d.GetSet "access_control" ≠
        [] :=
  ⟨rfl, rfl, by decide, by decide, by decide⟩

/-- C9 (amended): after a read whose `GetUser` call succeeds, `access_control` keeps the value
it had before the read when the observed user has no access-control object (so it is empty
only if it was empty before), and is the set that `d.Set` builds from `flattenUserACL` of the
observed user when it has one: the translator is applied only in the second case. -/
theorem read_access_control_only_when_observed (client : Client) (d : ResourceData)
    (calls : List Call) (u : DatabaseUser)
    (h : client.GetUser calls (d.GetString "database_id") d.Id = .ok u) :
    (resourceVultrDatabaseUserRead client d calls).diags = [] ∧
      (u.AccessControl = none →
        (resourceVultrDatabaseUserRead client d calls).d.GetSet "access_control" =
          d.GetSet "access_control") ∧
      (u.AccessControl ≠ none →
        (resourceVultrDatabaseUserRead client d calls).d.GetSet "access_control" =
          d.toSet (flattenUserACL u)) := by
  rw [read_ok client d calls u h]
  refine ⟨rfl, ?_, ?_⟩
  · intro hn
    rw [getSet_access_control, getSet_access_control, if_pos hn]
  · intro hs
    rw [getSet_access_control, if_neg hs]
    rfl

/-- C9 (amended) at concrete inputs: an observed user without access control read into
resource data without one leaves the field empty; an observed user with one fills it; and an
observed category list that names "+@read" twice is stored as a set, "+@read" once and the
elements in the order of their codes. -/
theorem read_access_control_only_when_observed_witness :
    (resourceVultrDatabaseUserRead okClient aliceData []).d.GetSet "access_control" = [] ∧
      (resourceVultrDatabaseUserRead aclClient aliceData []).d.GetSet "access_control" =
        [aclA] ∧
      (resourceVultrDatabaseUserRead repeatsClient aliceData []).d.GetSet "access_control" =
        [{ acl_categories := ["+@read", "+@write"], acl_channels := [], acl_commands := [],
           acl_keys := ["*"] }] :=
  ⟨(read_access_control_only_when_observed okClient aliceData [] aliceObserved rfl).2.1 rfl,
    ((read_access_control_only_when_observed aclClient aliceData [] aliceWithACL rfl).2.2
      (by decide)).trans (by decide),
    ((read_access_control_only_when_observed repeatsClient aliceData [] aliceWithRepeats
      rfl).2.2 (by decide)).trans (by decide)⟩

/-! ## The access-control update: what is sent -/

/-- While the calls for the first elements succeed, `updateUserACL` goes on with the
remaining elements. -/
theorem updateUserACL_append (client : Client) (databaseID : String) (d : ResourceData)
    (done rest : List UserACL) (calls : List Call)
    (hall : client.allSucceed calls (aclCallsOf databaseID d.Id done) = true) :
    updateUserACL client databaseID d (done ++ rest) calls =
      updateUserACL client databaseID d rest (calls ++ aclCallsOf databaseID d.Id done) := by
  induction done generalizing calls with
  | nil => simp [aclCallsOf]
  | cons v done ih =>
    simp only [aclCallsOf, List.map_cons, Client.allSucceed, Client.failure,
      Bool.and_eq_true] at hall
    cases hresp : client.UpdateUserACL calls databaseID d.Id (aclReqOf v) with
    | error err => simp [hresp] at hall
    | ok u =>
      have h := ih (calls ++ [Call.UpdateUserACL databaseID d.Id (aclReqOf v)])
        (by simpa [aclCallsOf] using hall.2)
      simp only [List.cons_append, updateUserACL, hresp, List.append_eq]
      rw [h]
      simp [aclCallsOf]

/-- C3 (as stated, refuted): the block `aclA` declares no channels and no commands.  The
request sent for it has the two pointers set, but each points to the nil slice, not to an
explicit empty list. -/
theorem updateUserACL_empty_set_sent_as_nil_slice :
    (updateUserACL okClient "db1" aliceData [aclA] []).2 =
        [Call.UpdateUserACL "db1" "alice"
          { ACLCategories := some (StringSlice.mk ["+@read"]),
            ACLChannels := some StringSlice.nil, ACLCommands := some StringSlice.nil,
            ACLKeys := some (StringSlice.mk ["*"]), Permission := "" }] ∧
      (updateUserACL okClient "db1" aliceData [aclA] []).2 ≠
        [Call.UpdateUserACL "db1" "alice"
          { ACLCategories := some (StringSlice.mk ["+@read"]),
            ACLChannels := some (StringSlice.mk []), ACLCommands := some (StringSlice.mk []),
            ACLKeys := some (StringSlice.mk ["*"]), Permission := "" }] := by
  decide

/-- C3 (amended): every request that `updateUserACL` sends carries all four list fields as
non-nil pointers and no permission.  Each pointer points to the slice `sliceOf` of the
declared set of the element the request is built from: a slice that holds exactly the
elements of the set, non-nil when the set has an element and the nil slice when the set is
empty (or omitted).  The requests are those of the first `k` elements, in order, with `k` at
least one when there is an element; a value with one element gives exactly one request. -/
theorem updateUserACL_sends_all_four_lists (client : Client) (databaseID : String)
    (d : ResourceData) (accessControl : List UserACL) (calls : List Call) :
    (∃ k, (accessControl = [] ∨ 0 < k) ∧
      (updateUserACL client databaseID d accessControl calls).2 =
        calls ++ (accessControl.take k).map (fun v =>
          Call.UpdateUserACL databaseID d.Id
            { ACLCategories := some (sliceOf v.acl_categories),
              ACLChannels := some (sliceOf v.acl_channels),
              ACLCommands := some (sliceOf v.acl_commands),
              ACLKeys := some (sliceOf v.acl_keys),
              Permission := "" })) ∧
      (∀ v, accessControl = [v] →
        (updateUserACL client databaseID d accessControl calls).2 =
          calls ++ [Call.UpdateUserACL databaseID d.Id
            { ACLCategories := some (sliceOf v.acl_categories),
              ACLChannels := some (sliceOf v.acl_channels),
              ACLCommands := some (sliceOf v.acl_commands),
              ACLKeys := some (sliceOf v.acl_keys),
              Permission := "" }]) ∧
      (∀ set, (sliceOf set).elems = set ∧ (sliceOf set = StringSlice.nil ↔ set = []) ∧
        (set ≠ [] → sliceOf set = StringSlice.mk set)) := by
  refine ⟨?_, ?_, ?_⟩
  · rcases updateUserACL_cases client databaseID d accessControl calls with
      ⟨_, hres⟩ | ⟨done, failed, later, err, hsplit, _, _, hres⟩
    · refine ⟨accessControl.length, ?_, ?_⟩
      · cases accessControl with
        | nil => exact Or.inl rfl
        | cons v rest => exact Or.inr (Nat.succ_pos _)
      · rw [hres]
        simp [aclCallsOf, aclReqOf_eq]
    · refine ⟨done.length + 1, Or.inr (Nat.succ_pos _), ?_⟩
      rw [hres, hsplit]
      simp [aclCallsOf, aclReqOf_eq, List.take_append_eq_append_take]
  · intro v hv
    subst hv
    rw [← aclReqOf_eq]
    cases hresp : client.UpdateUserACL calls databaseID d.Id (aclReqOf v) with
    | error err => simp [updateUserACL, hresp]
    | ok u => simp [updateUserACL, hresp]
  · intro set
    cases set with
    | nil => exact ⟨rfl, ⟨fun _ => rfl, fun _ => rfl⟩, fun h => absurd rfl h⟩
    | cons r rest =>
      refine ⟨rfl, ⟨fun h => ?_, fun h => ?_⟩, fun _ => rfl⟩
      · cases h
      · cases h

/-- C3 (amended) at concrete inputs: the block `aclA`, with one category, one key pattern and
no channels or commands, on a remote that accepts the call. -/
theorem updateUserACL_sends_all_four_lists_witness :
    (updateUserACL okClient "db1" aliceData [aclA] []).2 =
      [] ++ [Call.UpdateUserACL "db1" aliceData.Id
        { ACLCategories := some (StringSlice.mk ["+@read"]),
          ACLChannels := some StringSlice.nil, ACLCommands := some StringSlice.nil,
          ACLKeys := some (StringSlice.mk ["*"]), Permission := "" }] :=
  (updateUserACL_sends_all_four_lists okClient "db1" aliceData [aclA] []).2.1 aclA rfl

/-- C6 (as stated, refuted): with two entries and a remote on which every call succeeds,
`updateUserACL` issues two `UpdateUserACL` calls, the second built from the second entry. -/
theorem updateUserACL_two_entries_two_calls :
    updateUserACL okClient "db1" aliceData [aclA, aclB] [] =
      (none,
        [Call.UpdateUserACL "db1" "alice"
          { ACLCategories := some (StringSlice.mk ["+@read"]),
            ACLChannels := some StringSlice.nil, ACLCommands := some StringSlice.nil,
            ACLKeys := some (StringSlice.mk ["*"]), Permission := "" },
         Call.UpdateUserACL "db1" "alice"
          { ACLCategories := some StringSlice.nil,
            ACLChannels := some (StringSlice.mk ["news"]),
            ACLCommands := some (StringSlice.mk ["+get"]),
            ACLKeys := some StringSlice.nil, Permission := "" }]) := by
  decide

/-- C6 (amended): `updateUserACL` issues one `UpdateUserACL` call for each entry, in order,
each built from its own entry, as long as the calls succeed, and it stops at the first call
that fails, returning its error.  With exactly one entry it issues exactly one call, built
from that entry. -/
theorem updateUserACL_one_call_per_entry (client : Client) (databaseID : String)
    (d : ResourceData) (accessControl : List UserACL) (calls : List Call) :
    (∀ v, accessControl = [v] →
      (updateUserACL client databaseID d accessControl calls).2 =
        calls ++ [Call.UpdateUserACL databaseID d.Id (aclReqOf v)]) ∧
    (client.allSucceed calls (aclCallsOf databaseID d.Id accessControl) = true →
      updateUserACL client databaseID d accessControl calls =
        (none, calls ++ aclCallsOf databaseID d.Id accessControl)) ∧
    (∀ done failed later err,
      accessControl = done ++ failed :: later →
      client.allSucceed calls (aclCallsOf databaseID d.Id done) = true →
      client.UpdateUserACL (calls ++ aclCallsOf databaseID d.Id done) databaseID d.Id
        (aclReqOf failed) = .error err →
      updateUserACL client databaseID d accessControl calls =
        (some err, calls ++ aclCallsOf databaseID d.Id done ++
          [Call.UpdateUserACL databaseID d.Id (aclReqOf failed)])) := by
  refine ⟨?_, ?_, ?_⟩
  · intro v hv
    subst hv
    cases hresp : client.UpdateUserACL calls databaseID d.Id (aclReqOf v) with
    | error err => simp [updateUserACL, hresp]
    | ok u => simp [updateUserACL, hresp]
  · intro hall
    have h := updateUserACL_append client databaseID d accessControl [] calls hall
    simpa [updateUserACL] using h
  · intro done failed later err hsplit hall hfail
    rw [hsplit, updateUserACL_append client databaseID d done (failed :: later) calls hall]
    simp [updateUserACL, hfail]

/-- C6 (amended) at concrete inputs: one entry gives one call; two entries on a remote that
accepts every call give two calls. -/
theorem updateUserACL_one_call_per_entry_witness :
    (updateUserACL okClient "db1" aliceData [aclA] []).2 =
        [] ++ [Call.UpdateUserACL "db1" aliceData.Id (aclReqOf aclA)] ∧
      updateUserACL okClient "db1" aliceData [aclA, aclB] [] =
        (none, [] ++ aclCallsOf "db1" aliceData.Id [aclA, aclB]) :=
  ⟨(updateUserACL_one_call_per_entry okClient "db1" aliceData [aclA] []).1 aclA rfl,
    (updateUserACL_one_call_per_entry okClient "db1" aliceData [aclA, aclB] []).2.1
      (by decide)⟩

/-! ## Create -/

/-- A create whose `CreateUser` call fails issues no other call, returns the error and leaves
the resource data, its identifier included, as it was. -/
theorem create_error (client : Client) (d : ResourceData) (calls : List Call)
    (err : RemoteError)
    (h : client.CreateUser calls (d.GetString "database_id")
      ⟨d.GetString "username", d.GetString "password", d.GetString "encryption",
        d.GetString "permission"⟩ = .error err) :
    resourceVultrDatabaseUserCreate client d calls =
      ⟨Errorf ("error creating database user: " ++ err.msg), d,
        calls ++ [Call.CreateUser (d.GetString "database_id")
          ⟨d.GetString "username", d.GetString "password", d.GetString "encryption",
            d.GetString "permission"⟩]⟩ := by
  unfold resourceVultrDatabaseUserCreate
  simp only [h]

/-- A create whose `CreateUser` call succeeds sets the identifier, then runs the
access-control update when a block is declared, then the read. -/
theorem create_ok (client : Client) (d : ResourceData) (calls : List Call)
    (databaseUser : DatabaseUser)
    (h : client.CreateUser calls (d.GetString "database_id")
      ⟨d.GetString "username", d.GetString "password", d.GetString "encryption",
        d.GetString "permission"⟩ = .ok databaseUser) :
    resourceVultrDatabaseUserCreate client d calls =
      if (d.GetOkSet "access_control").2 = true then
        match updateUserACL client (d.GetString "database_id") (d.SetId databaseUser.Username)
            (d.GetSet "access_control")
            (calls ++ [Call.CreateUser (d.GetString "database_id")
              ⟨d.GetString "username", d.GetString "password", d.GetString "encryption",
                d.GetString "permission"⟩]) with
        | (some err, calls) =>
          ⟨Errorf ("error updating user access control: " ++ err.msg),
            d.SetId databaseUser.Username, calls⟩
        | (none, calls) =>
          resourceVultrDatabaseUserRead client (d.SetId databaseUser.Username) calls
      else
        resourceVultrDatabaseUserRead client (d.SetId databaseUser.Username)
          (calls ++ [Call.CreateUser (d.GetString "database_id")
            ⟨d.GetString "username", d.GetString "password", d.GetString "encryption",
              d.GetString "permission"⟩]) := by
  unfold resourceVultrDatabaseUserCreate
  simp only [h]
  rfl

/-- The calls issued by `updateUserACL` for a non-empty value start with the call built from
the first element. -/
theorem updateUserACL_first_call (client : Client) (databaseID : String) (d : ResourceData)
    (v : UserACL) (rest : List UserACL) (calls : List Call) :
    ∃ more, (updateUserACL client databaseID d (v :: rest) calls).2 =
      calls ++ Call.UpdateUserACL databaseID d.Id (aclReqOf v) :: more := by
  rcases updateUserACL_cases client databaseID d (v :: rest) calls with
    ⟨_, hres⟩ | ⟨done, failed, later, err, hsplit, _, _, hres⟩
  · exact ⟨aclCallsOf databaseID d.Id rest, by rw [hres]; simp [aclCallsOf]⟩
  · cases done with
    | nil =>
      simp only [List.nil_append, List.cons.injEq] at hsplit
      exact ⟨[], by rw [hres, hsplit.1]; simp [aclCallsOf]⟩
    | cons w done =>
      simp only [List.cons_append, List.cons.injEq] at hsplit
      exact ⟨aclCallsOf databaseID d.Id done ++
        [Call.UpdateUserACL databaseID d.Id (aclReqOf failed)],
        by rw [hres, hsplit.1]; simp [aclCallsOf]⟩

/-- C2: when a non-empty `access_control` is declared, the first call of a create is
`CreateUser` with a request that carries the declared username, password, encryption and
permission and nothing else.  If that call fails no other call is issued, the create returns
the error and the resource data is left as it was.  If it succeeds, the next call is the
`UpdateUserACL` built from the first declared entry, addressed to the returned username. -/
theorem create_request_omits_acl (client : Client) (d : ResourceData) (calls : List Call)
    (hac : (d.GetOkSet "access_control").2 = true) :
    ∃ rest,
      (resourceVultrDatabaseUserCreate client d calls).calls =
        calls ++ Call.CreateUser (d.GetString "database_id")
          { Username := d.GetString "username", Password := d.GetString "password",
            Encryption := d.GetString "encryption",
            Permission := d.GetString "permission" } :: rest ∧
      (∀ err, client.CreateUser calls (d.GetString "database_id")
          { Username := d.GetString "username", Password := d.GetString "password",
            Encryption := d.GetString "encryption",
            Permission := d.GetString "permission" } = .error err →
        rest = [] ∧
        (resourceVultrDatabaseUserCreate client d calls).diags =
          Errorf ("error creating database user: " ++ err.msg) ∧
        (resourceVultrDatabaseUserCreate client d calls).d = d) ∧
      (∀ databaseUser, client.CreateUser calls (d.GetString "database_id")
          { Username := d.GetString "username", Password := d.GetString "password",
            Encryption := d.GetString "encryption",
            Permission := d.GetString "permission" } = .ok databaseUser →
        ∃ v more, (d.GetSet "access_control").head? = some v ∧
          rest = Call.UpdateUserACL (d.GetString "database_id") databaseUser.Username
            { ACLCategories := some (sliceOf v.acl_categories),
              ACLChannels := some (sliceOf v.acl_channels),
              ACLCommands := some (sliceOf v.acl_commands),
              ACLKeys := some (sliceOf v.acl_keys),
              Permission := "" } :: more) := by
  cases hresp : client.CreateUser calls (d.GetString "database_id")
      ⟨d.GetString "username", d.GetString "password", d.GetString "encryption",
        d.GetString "permission"⟩ with
  | error err =>
    rw [create_error client d calls err hresp]
    refine ⟨[], rfl, ?_, ?_⟩
    · intro err2 h2
      cases h2
      exact ⟨rfl, rfl, rfl⟩
    · intro u h2
      cases h2
  | ok databaseUser =>
    rw [create_ok client d calls databaseUser hresp, if_pos hac]
    cases hset : d.GetSet "access_control" with
    | nil => simp [ResourceData.GetOkSet, hset] at hac
    | cons v tail =>
      obtain ⟨more, hmore⟩ := updateUserACL_first_call client (d.GetString "database_id")
        (d.SetId databaseUser.Username) v tail
        (calls ++ [Call.CreateUser (d.GetString "database_id")
          ⟨d.GetString "username", d.GetString "password", d.GetString "encryption",
            d.GetString "permission"⟩])
      cases hres : updateUserACL client (d.GetString "database_id")
          (d.SetId databaseUser.Username) (v :: tail)
          (calls ++ [Call.CreateUser (d.GetString "database_id")
            ⟨d.GetString "username", d.GetString "password", d.GetString "encryption",
              d.GetString "permission"⟩]) with
      | mk result calls2 =>
        rw [hres] at hmore
        simp only at hmore
        cases result with
        | some err =>
          refine ⟨Call.UpdateUserACL (d.GetString "database_id") databaseUser.Username
            (aclReqOf v) :: more, ?_, ?_, ?_⟩
          · simp [hmore, ResourceData.SetId, ResourceData.Id]
          · intro err2 h2
            cases h2
          · intro u h2
            cases h2
            exact ⟨v, more, rfl, by rw [aclReqOf_eq]⟩
        | none =>
          refine ⟨Call.UpdateUserACL (d.GetString "database_id") databaseUser.Username
            (aclReqOf v) :: (more ++ [Call.GetUser (d.GetString "database_id")
              databaseUser.Username]), ?_, ?_, ?_⟩
          · simp [read_calls, hmore, ResourceData.SetId, ResourceData.Id,
              ResourceData.GetString]
          · intro err2 h2
            cases h2
          · intro u h2
            cases h2
            exact ⟨v, _, rfl, by rw [aclReqOf_eq]⟩

/-- C2 at concrete inputs: with the block `aclA` declared and a remote that accepts every
call, the create issues `CreateUser` without any list, then `UpdateUserACL`, then `GetUser`;
on a remote that rejects `CreateUser`, it issues `CreateUser` alone. -/
theorem create_request_omits_acl_witness :
    (createACLData.GetOkSet "access_control").2 = true ∧
      (∃ rest, (resourceVultrDatabaseUserCreate failingClient createACLData []).calls =
          [] ++ Call.CreateUser "db1"
            { Username := "alice", Password := "", Encryption := "", Permission := "read" } ::
            rest ∧ rest = []) ∧
      (resourceVultrDatabaseUserCreate okClient createACLData []).calls =
        [Call.CreateUser "db1"
          { Username := "alice", Password := "", Encryption := "", Permission := "read" },
         Call.UpdateUserACL "db1" "alice"
          { ACLCategories := some (StringSlice.mk ["+@read"]),
            ACLChannels := some StringSlice.nil, ACLCommands := some StringSlice.nil,
            ACLKeys := some (StringSlice.mk ["*"]), Permission := "" },
         Call.GetUser "db1" "alice"] := by
  refine ⟨by decide, ?_, by decide⟩
  obtain ⟨rest, hcalls, herr, _⟩ :=
    create_request_omits_acl failingClient createACLData [] (by decide)
  exact ⟨rest, hcalls, (herr ⟨false, "Server error"⟩ rfl).1⟩

/-- C10: when no `access_control` is declared and `CreateUser` and `GetUser` succeed, a
create returns no diagnostics and issues exactly two calls: `CreateUser` with the declared
username, password, encryption and permission (the empty string for an undeclared one), then
`GetUser` for the username that `CreateUser` returned; no `UpdateUserACL` is issued.  The
identifier is the username returned by `CreateUser`; username, password, permission,
access_key and access_cert are the observed values and encryption is the normalized observed
label (the declared value when the label is empty).  When `CreateUser` fails, the resource
data, its identifier included, is left as it was and no other call is issued. -/
theorem create_without_acl_end_to_end (client : Client) (d : ResourceData)
    (calls : List Call) :
    (∀ created observed,
      (d.GetOkSet "access_control").2 = false →
      client.CreateUser calls (d.GetString "database_id")
        { Username := d.GetString "username", Password := d.GetString "password",
          Encryption := d.GetString "encryption",
          Permission := d.GetString "permission" } = .ok created →
      client.GetUser
        (calls ++ [Call.CreateUser (d.GetString "database_id")
          { Username := d.GetString "username", Password := d.GetString "password",
            Encryption := d.GetString "encryption",
            Permission := d.GetString "permission" }])
        (d.GetString "database_id") created.Username = .ok observed →
      (resourceVultrDatabaseUserCreate client d calls).diags = [] ∧
      (resourceVultrDatabaseUserCreate client d calls).calls =
        calls ++ [Call.CreateUser (d.GetString "database_id")
            { Username := d.GetString "username", Password := d.GetString "password",
              Encryption := d.GetString "encryption",
              Permission := d.GetString "permission" },
          Call.GetUser (d.GetString "database_id") created.Username] ∧
      (resourceVultrDatabaseUserCreate client d calls).d.Id = created.Username ∧
      (resourceVultrDatabaseUserCreate client d calls).d.GetString "username" =
        observed.Username ∧
      (resourceVultrDatabaseUserCreate client d calls).d.GetString "password" =
        observed.Password ∧
      (resourceVultrDatabaseUserCreate client d calls).d.GetString "permission" =
        observed.Permission ∧
      (resourceVultrDatabaseUserCreate client d calls).d.GetString "access_key" =
        observed.AccessKey ∧
      (resourceVultrDatabaseUserCreate client d calls).d.GetString "access_cert" =
        observed.AccessCert ∧
      (resourceVultrDatabaseUserCreate client d calls).d.GetString "encryption" =
        (if observed.Encryption = "" then d.GetString "encryption"
          else if observed.Encryption = "Legacy (MySQL 5.x)" then "mysql_native_password"
          else "caching_sha2_password")) ∧
    (∀ err,
      client.CreateUser calls (d.GetString "database_id")
        { Username := d.GetString "username", Password := d.GetString "password",
          Encryption := d.GetString "encryption",
          Permission := d.GetString "permission" } = .error err →
      (resourceVultrDatabaseUserCreate client d calls).d = d ∧
      (resourceVultrDatabaseUserCreate client d calls).calls =
        calls ++ [Call.CreateUser (d.GetString "database_id")
          { Username := d.GetString "username", Password := d.GetString "password",
            Encryption := d.GetString "encryption",
            Permission := d.GetString "permission" }]) := by
  constructor
  · intro created observed hac hcreate hget
    have hno : ¬ (d.GetOkSet "access_control").2 = true := by simp [hac]
    have hget2 : client.GetUser
        (calls ++ [Call.CreateUser (d.GetString "database_id")
          ⟨d.GetString "username", d.GetString "password", d.GetString "encryption",
            d.GetString "permission"⟩])
        ((d.SetId created.Username).GetString "database_id")
        (d.SetId created.Username).Id = .ok observed := hget
    rw [create_ok client d calls created hcreate, if_neg hno,
      read_ok client (d.SetId created.Username) _ observed hget2]
    refine ⟨rfl, ?_, rfl, rfl, rfl, rfl, rfl, rfl, ?_⟩
    · simp only [List.append_assoc, List.singleton_append]
      rfl
    · by_cases he : observed.Encryption = "" <;>
        by_cases hl : observed.Encryption = "Legacy (MySQL 5.x)" <;>
        simp [he, hl, ResourceData.SetId]
  · intro err hcreate
    rw [create_error client d calls err hcreate]
    exact ⟨rfl, rfl⟩

/-- C10 at the scenario of the spec: desired state {`db1`, `alice`, permission `read`}, the
remote returning encryption "caching_sha2_password".  Two calls are issued, the identifier is
"alice", encryption is "caching_sha2_password" and the other fields are the observed ones. -/
theorem create_without_acl_end_to_end_witness :
    (resourceVultrDatabaseUserCreate okClient createData []).diags = [] ∧
      (resourceVultrDatabaseUserCreate okClient createData []).calls =
        [Call.CreateUser "db1"
          { Username := "alice", Password := "", Encryption := "", Permission := "read" },
         Call.GetUser "db1" "alice"] ∧
      (resourceVultrDatabaseUserCreate okClient createData []).d.Id = "alice" ∧
      (resourceVultrDatabaseUserCreate okClient createData []).d.GetString "password" =
        "generated" ∧
      (resourceVultrDatabaseUserCreate okClient createData []).d.GetString "encryption" =
        "caching_sha2_password" := by
  obtain ⟨hdiags, hcalls, hid, _, hpw, _, _, _, henc⟩ :=
    (create_without_acl_end_to_end okClient createData []).1 aliceObserved aliceObserved
      (by decide) rfl rfl
  exact ⟨hdiags, hcalls, hid, hpw, henc⟩

/-! ## Update: which calls are issued -/

/-- The calls an update issues are applicable update calls, followed by at most the
refreshing `GetUser`. -/
theorem update_issued (client : Client) (d : ResourceData) (calls : List Call) :
    ∃ issued, (resourceVultrDatabaseUserUpdate client d calls).calls = calls ++ issued ∧
      ∀ c ∈ issued, c ∈ applicableUpdateCalls d ∨
        c = Call.GetUser (d.GetString "database_id") d.Id := by
  rcases update_cases client d calls with
    ⟨_, hout⟩ | ⟨done, failed, later, err, hsplit, _, _, hcalls, _, _⟩
  · refine ⟨applicableUpdateCalls d ++ [Call.GetUser (d.GetString "database_id") d.Id],
      by rw [hout, read_calls, List.append_assoc], ?_⟩
    intro c hc
    rcases List.mem_append.1 hc with h | h
    · exact Or.inl h
    · exact Or.inr (by simpa using h)
  · refine ⟨done ++ [failed], by rw [hcalls, List.append_assoc], ?_⟩
    intro c hc
    left
    rw [hsplit]
    rcases List.mem_append.1 hc with h | h
    · exact List.mem_append_left _ h
    · have hcf : c = failed := by simpa using h
      subst hcf
      exact List.mem_append_right _ (List.mem_cons_self _ _)

/-- The kind of each applicable update call, and the concern whose change makes it
applicable. -/
theorem applicable_call_kind (d : ResourceData) (c : Call) (hc : c ∈ applicableUpdateCalls d) :
    (c.isPasswordUpdate = true ∧ c.isACLUpdate = false ∧ c.isPermissionUpdate = false ∧
        d.HasChange "password" = true) ∨
      (c.isPasswordUpdate = false ∧ c.isACLUpdate = true ∧ c.isPermissionUpdate = false ∧
        d.HasChange "access_control" = true) ∨
      (c.isPasswordUpdate = false ∧ c.isACLUpdate = false ∧ c.isPermissionUpdate = true ∧
        d.HasChange "permission" = true) := by
  unfold applicableUpdateCalls at hc
  rcases List.mem_append.1 hc with h | h
  · rcases List.mem_append.1 h with h | h
    · by_cases hpw : d.HasChange "password" = true
      · rw [if_pos hpw] at h
        have hcc := List.mem_singleton.1 h
        subst hcc
        exact Or.inl ⟨rfl, rfl, rfl, hpw⟩
      · rw [if_neg hpw] at h
        cases h
    · by_cases hac : d.HasChange "access_control" = true
      · rw [if_pos hac] at h
        obtain ⟨v, _, hv⟩ := List.mem_map.1 h
        subst hv
        exact Or.inr (Or.inl ⟨rfl, by simp [Call.isACLUpdate, aclReqOf_eq],
          by simp [Call.isPermissionUpdate, aclReqOf_eq], hac⟩)
      · rw [if_neg hac] at h
        cases h
  · by_cases hperm : d.HasChange "permission" = true
    · rw [if_pos hperm] at h
      have hcc := List.mem_singleton.1 h
      subst hcc
      exact Or.inr (Or.inr ⟨rfl, rfl, rfl, hperm⟩)
    · rw [if_neg hperm] at h
      cases h

/-- C5 (as stated, refuted): password and access control are unchanged, permission changed,
and the remote rejects the permission call.  The update issues that one `UpdateUserACL` call
and returns its error; no refreshing `GetUser` follows it. -/
theorem update_permission_failure_skips_read :
    permissionChangeData.HasChange "password" = false ∧
      permissionChangeData.HasChange "access_control" = false ∧
      permissionChangeData.HasChange "permission" = true ∧
      (resourceVultrDatabaseUserUpdate failingClient permissionChangeData []).calls =
        [Call.UpdateUserACL "db1" "alice"
          { ACLCategories := none, ACLChannels := none, ACLCommands := none, ACLKeys := none,
            Permission := "write" }] ∧
      (resourceVultrDatabaseUserUpdate failingClient permissionChangeData []).diags =
        [⟨Severity.Error, "error updating user permission alice : Server error"⟩] ∧
      ¬ (∃ c ∈ (resourceVultrDatabaseUserUpdate failingClient permissionChangeData []).calls,
        c.isGetUser = true) := by
  decide

/-- C5 (amended): when password and access control are unchanged and permission changed, the
update issues exactly one update call, the `UpdateUserACL` whose request carries the new
permission and leaves the four lists unset, followed by the refreshing `GetUser` when that
call succeeds (and by no call when it fails).  For every update, no `UpdateUser` call is
issued when the password did not change, no `UpdateUserACL` carrying a list when the access
control did not change, and no list-free `UpdateUserACL` when the permission did not
change. -/
theorem update_permission_only_minimal (client : Client) (d : ResourceData)
    (calls : List Call) :
    (d.HasChange "password" = false → d.HasChange "access_control" = false →
      d.HasChange "permission" = true →
      (resourceVultrDatabaseUserUpdate client d calls).calls =
        calls ++ Call.UpdateUserACL (d.GetString "database_id") d.Id
          { ACLCategories := none, ACLChannels := none, ACLCommands := none,
            ACLKeys := none, Permission := (d.GetChangeString "permission").2 } ::
          (if (client.failure calls (Call.UpdateUserACL (d.GetString "database_id") d.Id
              { ACLCategories := none, ACLChannels := none, ACLCommands := none,
                ACLKeys := none, Permission := (d.GetChangeString "permission").2 })).isNone
            then [Call.GetUser (d.GetString "database_id") d.Id] else [])) ∧
    (∃ issued, (resourceVultrDatabaseUserUpdate client d calls).calls = calls ++ issued ∧
      (d.HasChange "password" = false → ∀ c ∈ issued, c.isPasswordUpdate = false) ∧
      (d.HasChange "access_control" = false → ∀ c ∈ issued, c.isACLUpdate = false) ∧
      (d.HasChange "permission" = false → ∀ c ∈ issued, c.isPermissionUpdate = false)) := by
  constructor
  · intro hpw hac hperm
    have hplan : applicableUpdateCalls d =
        [Call.UpdateUserACL (d.GetString "database_id") d.Id
          { Permission := (d.GetChangeString "permission").2 }] := by
      simp [applicableUpdateCalls, hpw, hac, hperm]
    rcases update_cases client d calls with
      ⟨hall, hout⟩ | ⟨done, failed, later, err, hsplit, _, hfail, hcalls, _, _⟩
    · rw [hplan] at hall hout
      simp only [Client.allSucceed, Bool.and_true] at hall
      rw [hout, read_calls, hall]
      simp
    · rw [hplan] at hsplit
      cases done with
      | nil =>
        simp only [List.nil_append, List.cons.injEq] at hsplit
        rw [← hsplit.1] at hfail hcalls
        simp only [List.append_nil] at hfail hcalls
        rw [hcalls, hfail]
        simp
      | cons c done =>
        simp only [List.cons_append, List.cons.injEq] at hsplit
        have := hsplit.2
        simp at this
  · obtain ⟨issued, hcalls, hkind⟩ := update_issued client d calls
    refine ⟨issued, hcalls, ?_, ?_, ?_⟩
    · intro hno c hc
      rcases hkind c hc with h | h
      · rcases applicable_call_kind d c h with h1 | h1 | h1
        · rw [hno] at h1
          simp at h1
        · exact h1.1
        · exact h1.1
      · subst h
        rfl
    · intro hno c hc
      rcases hkind c hc with h | h
      · rcases applicable_call_kind d c h with h1 | h1 | h1
        · exact h1.2.1
        · rw [hno] at h1
          simp at h1
        · exact h1.2.1
      · subst h
        rfl
    · intro hno c hc
      rcases hkind c hc with h | h
      · rcases applicable_call_kind d c h with h1 | h1 | h1
        · exact h1.2.2.1
        · exact h1.2.2.1
        · rw [hno] at h1
          simp at h1
      · subst h
        rfl

/-- C5 (amended) at the scenario of the spec: password "p1" and block `aclA` unchanged,
permission changed from "read" to "write", on a remote that accepts every call. -/
theorem update_permission_only_minimal_witness :
    (resourceVultrDatabaseUserUpdate okClient permissionChangeData []).calls =
      [] ++ Call.UpdateUserACL "db1" "alice"
        { ACLCategories := none, ACLChannels := none, ACLCommands := none, ACLKeys := none,
          Permission := "write" } :: [Call.GetUser "db1" "alice"] :=
  (update_permission_only_minimal okClient permissionChangeData []).1
    (by decide) (by decide) (by decide)

/-- When the calls `a` all succeed, the first failing call of `a ++ b` comes after `a`. -/
theorem first_failure_after (client : Client) (calls a b done later : List Call)
    (failed : Call) (err : RemoteError) (hsplit : a ++ b = done ++ failed :: later)
    (ha : client.allSucceed calls a = true)
    (hfail : client.failure (calls ++ done) failed = some err) :
    ∃ more, done = a ++ more := by
  induction a generalizing calls done with
  | nil => exact ⟨done, rfl⟩
  | cons x a ih =>
    simp only [Client.allSucceed, Bool.and_eq_true] at ha
    cases done with
    | nil =>
      simp only [List.cons_append, List.nil_append, List.cons.injEq] at hsplit
      rw [← hsplit.1, List.append_nil] at hfail
      rw [hfail] at ha
      simp at ha
    | cons y done =>
      simp only [List.cons_append, List.cons.injEq] at hsplit
      obtain ⟨hxy, hrest⟩ := hsplit
      subst hxy
      obtain ⟨more, hmore⟩ := ih (calls ++ [x]) done hrest ha.2 (by simpa using hfail)
      exact ⟨more, by rw [hmore]; rfl⟩

/-- C7 (as stated, refuted): the access control changed from the block `aclA` to no block at
all, every remote call succeeds, and the update issues the refreshing `GetUser` alone: no
`UpdateUserACL` call, hence no full-replace call. -/
theorem update_acl_removed_issues_no_acl_call :
    aclRemovedData.HasChange "access_control" = true ∧
      aclRemovedData.HasChange "password" = false ∧
      (resourceVultrDatabaseUserUpdate okClient aclRemovedData []).diags = [] ∧
      (resourceVultrDatabaseUserUpdate okClient aclRemovedData []).calls =
        [Call.GetUser "db1" "alice"] ∧
      (∀ c ∈ (resourceVultrDatabaseUserUpdate okClient aclRemovedData []).calls,
        c.isACLUpdate = false) := by
  decide

/-- C7 (amended): when the access control changed, the desired value holds a block and the
password call, if one is applicable, succeeded, the update issues, right after the password
call, an `UpdateUserACL` whose request carries all four lists of the first desired block. -/
theorem update_acl_change_full_replace (client : Client) (d : ResourceData)
    (calls : List Call) (v : UserACL) (rest : List UserACL)
    (hchange : d.HasChange "access_control" = true)
    (hnew : (d.GetChangeSet "access_control").2 = v :: rest)
    (hpw : d.HasChange "password" = true →
      client.failure calls (Call.UpdateUser (d.GetString "database_id") d.Id
        { Password := (d.GetChangeString "password").2 }) = none) :
    ∃ after, (resourceVultrDatabaseUserUpdate client d calls).calls =
      calls ++
        (if d.HasChange "password" then
          [Call.UpdateUser (d.GetString "database_id") d.Id
            { Password := (d.GetChangeString "password").2 }]
        else []) ++
        Call.UpdateUserACL (d.GetString "database_id") d.Id
          { ACLCategories := some (sliceOf v.acl_categories),
            ACLChannels := some (sliceOf v.acl_channels),
            ACLCommands := some (sliceOf v.acl_commands),
            ACLKeys := some (sliceOf v.acl_keys),
            Permission := "" } :: after := by
  have hplan : applicableUpdateCalls d =
      (if d.HasChange "password" then
        [Call.UpdateUser (d.GetString "database_id") d.Id
          { Password := (d.GetChangeString "password").2 }]
      else []) ++
      (Call.UpdateUserACL (d.GetString "database_id") d.Id (aclReqOf v) ::
        (aclCallsOf (d.GetString "database_id") d.Id rest ++
          (if d.HasChange "permission" then
            [Call.UpdateUserACL (d.GetString "database_id") d.Id
              { Permission := (d.GetChangeString "permission").2 }]
          else []))) := by
    unfold applicableUpdateCalls
    rw [if_pos hchange, hnew, List.append_assoc]
    rfl
  have hpwok : client.allSucceed calls
      (if d.HasChange "password" then
        [Call.UpdateUser (d.GetString "database_id") d.Id
          { Password := (d.GetChangeString "password").2 }]
      else []) = true := by
    by_cases h : d.HasChange "password" = true
    · rw [if_pos h]
      simp only [Client.allSucceed, hpw h, Option.isNone_none, Bool.and_self]
    · rw [if_neg h]
      rfl
  rw [← aclReqOf_eq]
  rcases update_cases client d calls with
    ⟨_, hout⟩ | ⟨done, failed, later, err, hsplit, _, hfail, hcalls, _, _⟩
  · rw [hout, read_calls, hplan]
    exact ⟨aclCallsOf (d.GetString "database_id") d.Id rest ++
      ((if d.HasChange "permission" then
          [Call.UpdateUserACL (d.GetString "database_id") d.Id
            { Permission := (d.GetChangeString "permission").2 }]
        else []) ++ [Call.GetUser (d.GetString "database_id") d.Id]),
      by simp only [List.append_assoc, List.cons_append]⟩
  · rw [hplan] at hsplit
    obtain ⟨more, hmore⟩ := first_failure_after client calls _ _ done later failed err hsplit
      hpwok hfail
    rw [hmore, List.append_assoc] at hsplit
    have hsplit2 := List.append_cancel_left hsplit
    rw [hcalls, hmore]
    cases more with
    | nil =>
      simp only [List.nil_append, List.cons.injEq] at hsplit2
      exact ⟨[], by rw [← hsplit2.1]; simp⟩
    | cons c more =>
      simp only [List.cons_append, List.cons.injEq] at hsplit2
      exact ⟨more ++ [failed], by rw [← hsplit2.1]; simp⟩

/-- C7 (amended) at concrete inputs: password, access control and permission all change, the
desired block is `aclB`, and the remote accepts every call. -/
theorem update_acl_change_full_replace_witness :
    allChangedData.HasChange "access_control" = true ∧
      allChangedData.HasChange "password" = true ∧
      ∃ after, (resourceVultrDatabaseUserUpdate okClient allChangedData []).calls =
        [] ++ [Call.UpdateUser "db1" "alice" { Password := "p2" }] ++
          Call.UpdateUserACL "db1" "alice"
            { ACLCategories := some StringSlice.nil,
              ACLChannels := some (StringSlice.mk ["news"]),
              ACLCommands := some (StringSlice.mk ["+get"]),
              ACLKeys := some StringSlice.nil, Permission := "" } :: after :=
  ⟨by decide, by decide,
    update_acl_change_full_replace okClient allChangedData [] aclB [] (by decide) rfl
      (fun _ => rfl)⟩

/-- C8: the applicable calls of an update are attempted in the order password, access
control, permission.  Either all of them succeed, and the update is the read issued after
them; or one of them fails, and then the calls issued are exactly those up to and including
the first failing one (no later update call, no `GetUser`), the update returns one error
diagnostic, and the resource data is what it was before the update (not refreshed). -/
theorem update_first_error_stops (client : Client) (d : ResourceData) (calls : List Call) :
    (client.allSucceed calls (applicableUpdateCalls d) = true ∧
      resourceVultrDatabaseUserUpdate client d calls =
        resourceVultrDatabaseUserRead client d (calls ++ applicableUpdateCalls d)) ∨
    (∃ done failed later err,
      applicableUpdateCalls d = done ++ failed :: later ∧
      client.allSucceed calls done = true ∧
      client.failure (calls ++ done) failed = some err ∧
      (resourceVultrDatabaseUserUpdate client d calls).calls = calls ++ done ++ [failed] ∧
      (∀ c ∈ done ++ [failed], c.isGetUser = false) ∧
      (∃ summary, (resourceVultrDatabaseUserUpdate client d calls).diags =
        [⟨Severity.Error, summary⟩]) ∧
      (resourceVultrDatabaseUserUpdate client d calls).d = d) := by
  rcases update_cases client d calls with
    h | ⟨done, failed, later, err, hsplit, hall, hfail, hcalls, hdiags, hd⟩
  · exact Or.inl h
  · refine Or.inr ⟨done, failed, later, err, hsplit, hall, hfail, hcalls, ?_, hdiags, hd⟩
    intro c hc
    have hmem : c ∈ applicableUpdateCalls d := by
      rw [hsplit]
      rcases List.mem_append.1 hc with h | h
      · exact List.mem_append_left _ h
      · have hcf : c = failed := by simpa using h
        subst hcf
        exact List.mem_append_right _ (List.mem_cons_self _ _)
    cases c with
    | GetUser databaseID userID =>
      rcases applicable_call_kind d _ hmem with h | h | h
      · exact absurd h.1 (by simp [Call.isPasswordUpdate])
      · exact absurd h.2.1 (by simp [Call.isACLUpdate])
      · exact absurd h.2.2.1 (by simp [Call.isPermissionUpdate])
    | CreateUser _ _ => rfl
    | UpdateUser _ _ _ => rfl
    | UpdateUserACL _ _ _ => rfl
    | DeleteUser _ _ => rfl

/-- C8 at concrete inputs: password, access control and permission all change and the remote
rejects every call.  The update returns one error diagnostic and the resource data is not
refreshed. -/
theorem update_first_error_stops_witness :
    (resourceVultrDatabaseUserUpdate failingClient allChangedData []).d = allChangedData ∧
      ∃ summary, (resourceVultrDatabaseUserUpdate failingClient allChangedData []).diags =
        [⟨Severity.Error, summary⟩] :=
  (update_first_error_stops failingClient allChangedData []).elim
    (fun h => absurd h.1 (by decide))
    (fun ⟨_, _, _, _, _, _, _, _, _, hdiags, hd⟩ => ⟨hd, hdiags⟩)

end Vultr
